import Mathlib

/-!
Shallow embedding of the docs-to-md tool: the extractor (`parse_docstrings`,
`get_imports`) and renderer (`yield_docstrings`) of `src/docs2md/docs2md.py`,
together with the variant extractor of `src/doc2md.py`.

The Python parser (`ast.parse`) is an external collaborator: the embedding
takes the parsed tree as data (`PyModule`, `Stmt`), with `lineno` fields
holding whatever line numbers the parser reported.  Where a claim relates a
`lineno` to the source text, the contract assumed is the modern CPython one:
a statement's `lineno` is the first source line of the statement, and a
string literal's `lineno` is the line its text begins on.

String helpers (`pySplitlines`, `dedent`, `cleandoc`, ...) are translated
from the CPython implementations of `str.splitlines`, `textwrap.dedent` and
`inspect.cleandoc` that the tool calls, restricted to `\n` line endings.
-/

namespace DocsToMd

/-! ### String helpers translated from CPython -/

def isTabOrSpace (c : Char) : Bool := c = ' ' || c = '\t'

/-- Helper for splitting a character list at newline characters,
keeping a (reversed) accumulator for the current line. -/
def splitNLAux (cur : List Char) : List Char → List (List Char)
  | [] => [cur.reverse]
  | c :: rest =>
    if c = '\n' then cur.reverse :: splitNLAux [] rest
    else splitNLAux (c :: cur) rest

/-- Python `text.split('\n')`: always at least one part, keeps empty parts. -/
def pySplitNL (s : String) : List (List Char) := splitNLAux [] s.data

/-- Helper for Python `str.splitlines`: like splitting at newlines, but a
trailing newline produces no final empty line and `""` gives no lines. -/
def splitlinesAux (cur : List Char) : List Char → List (List Char)
  | [] => if cur.isEmpty then [] else [cur.reverse]
  | c :: rest =>
    if c = '\n' then cur.reverse :: splitlinesAux [] rest
    else splitlinesAux (c :: cur) rest

/-- Python `str.splitlines` (restricted to `\n` line boundaries). -/
def pySplitlines (s : String) : List String :=
  (splitlinesAux [] s.data).map List.asString

/-- Python `str.expandtabs()` with tab size 8: each tab becomes the number of
spaces needed to reach the next multiple of 8, and the column counter resets
after a newline. -/
def expandtabsAux (col : Nat) : List Char → List Char
  | [] => []
  | c :: rest =>
    if c = '\t' then
      let pad := 8 - col % 8
      List.replicate pad ' ' ++ expandtabsAux (col + pad) rest
    else if c = '\n' ∨ c = '\r' then c :: expandtabsAux 0 rest
    else c :: expandtabsAux (col + 1) rest

/-- Python `str.lstrip()` on a character list. -/
def lstripWs (l : List Char) : List Char := l.dropWhile Char.isWhitespace

/-- Drop trailing empty lines (CPython: `while lines and not lines[-1]: lines.pop()`). -/
def dropTrailingEmpty (ls : List (List Char)) : List (List Char) :=
  (ls.reverse.dropWhile List.isEmpty).reverse

/-- CPython `inspect.cleandoc`, which `ast.get_docstring(node, clean=True)`
applies to the raw docstring: expand tabs, strip from every line after the
first the smallest indentation found on a nonblank later line, strip the
first line entirely, and drop leading and trailing blank lines. -/
def cleandoc (doc : String) : String :=
  let lines := splitNLAux [] (expandtabsAux 0 doc.data)
  let margin : Option Nat := lines.tail.foldl
    (fun m line =>
      let content := (lstripWs line).length
      if content = 0 then m
      else
        let indent := line.length - content
        match m with
        | none => some indent
        | some m0 => some (Nat.min m0 indent)) none
  let lines := match lines with
    | [] => []
    | l0 :: rest =>
      lstripWs l0 ::
        (match margin with
         | none => rest
         | some mg => rest.map (fun l => l.drop mg))
  let lines := dropTrailingEmpty lines
  let lines := lines.dropWhile List.isEmpty
  (List.intercalate ['\n'] lines).asString

/-- Longest common starting run of two character lists. -/
def commonStart : List Char → List Char → List Char
  | a :: as, b :: bs => if a = b then a :: commonStart as bs else []
  | _, _ => []

/-- CPython `textwrap.dedent`: blank whitespace-only lines are emptied, the
longest whitespace margin common to all contentful lines is computed, and
that margin is removed from every line that starts with it. -/
def dedent (text : String) : String :=
  let lines := pySplitNL text
  let norm := lines.map (fun l => if !l.isEmpty && l.all isTabOrSpace then [] else l)
  let indents := (norm.filter (fun l => l.any (fun c => !(isTabOrSpace c)))).map
    (fun l => l.takeWhile isTabOrSpace)
  let margin := match indents with
    | [] => []
    | i :: is => is.foldl commonStart i
  let stripped := norm.map (fun l => if margin.isPrefixOf l then l.drop margin.length else l)
  (List.intercalate ['\n'] stripped).asString

/-- Python truthiness fallback `s or dflt` for an optional string:
`None` and `""` both fall back. -/
def pyOr (o : Option String) (dflt : String) : String :=
  match o with
  | some s => if s = "" then dflt else s
  | none => dflt

/-- Python list slice `l[a:b]` for nonnegative bounds. -/
def pySlice (l : List String) (a b : Nat) : List String := (l.drop a).take (b - a)

/-! ### The AST data model

The subset of Python `ast` nodes the tool distinguishes.  Any statement that
is none of these (assignments, `pass`, `if`, ...) is `other`; its `body`
lists every statement nested directly inside it, in field order, so that
`ast.walk` finds nested imports and declarations. -/

inductive Cat where
  | module
  | classDef
  | functionDef
  | asyncFunctionDef
  | importFrom
  | importPlain
deriving DecidableEq, Repr

inductive Stmt where
  | functionDef (name : String) (lineno : Nat) (body : List Stmt) : Stmt
  | asyncFunctionDef (name : String) (lineno : Nat) (body : List Stmt) : Stmt
  | classDef (name : String) (lineno : Nat) (body : List Stmt) : Stmt
  | exprStr (s : String) (lineno : Nat) : Stmt
  | importFrom (module : Option String) (lineno : Nat) : Stmt
  | importPlain (names : List String) (lineno : Nat) : Stmt
  | other (lineno : Nat) (body : List Stmt) : Stmt
deriving Repr

/-- `ast.Module`: the root node (it has no `lineno` and no `name`). -/
structure PyModule where
  body : List Stmt
deriving Repr

/-- A node as visited by `ast.walk`: the module root or a statement.
Non-statement nodes (expressions, aliases, arguments) never carry statements
and never produce records, so the walk is restricted to these. -/
inductive WNode where
  | moduleNode (body : List Stmt)
  | stmtNode (s : Stmt)
deriving Repr

def Stmt.pyLineno : Stmt → Nat
  | .functionDef _ l _ => l
  | .asyncFunctionDef _ l _ => l
  | .classDef _ l _ => l
  | .exprStr _ l => l
  | .importFrom _ l => l
  | .importPlain _ l => l
  | .other l _ => l

/-- The statements nested directly inside a statement, in AST field order. -/
def Stmt.childStmts : Stmt → List Stmt
  | .functionDef _ _ b => b
  | .asyncFunctionDef _ _ b => b
  | .classDef _ _ b => b
  | .other _ b => b
  | _ => []

mutual

/-- Number of statement nodes in a statement (itself included). -/
def Stmt.size : Stmt → Nat
  | .functionDef _ _ b => 1 + sizeStmts b
  | .asyncFunctionDef _ _ b => 1 + sizeStmts b
  | .classDef _ _ b => 1 + sizeStmts b
  | .exprStr _ _ => 1
  | .importFrom _ _ => 1
  | .importPlain _ _ => 1
  | .other _ b => 1 + sizeStmts b

/-- Number of statement nodes in a statement list. -/
def sizeStmts : List Stmt → Nat
  | [] => 0
  | s :: rest => Stmt.size s + sizeStmts rest

end

theorem stmt_size_pos (s : Stmt) : 1 ≤ s.size := by
  cases s <;> simp [Stmt.size]

theorem sizeStmts_append (a b : List Stmt) :
    sizeStmts (a ++ b) = sizeStmts a + sizeStmts b := by
  induction a with
  | nil => simp [sizeStmts]
  | cons x xs ih => simp [sizeStmts, ih]; omega

theorem childStmts_size_lt (s : Stmt) : sizeStmts s.childStmts < s.size := by
  cases s <;> simp [Stmt.childStmts, Stmt.size, sizeStmts]

/-- Fuel-bounded breadth-first traversal of a statement queue.  Each step
pops the front node, emits it, and pushes its children at the back, like
`ast.walk` does with its deque.  The fuel only forces termination;
`walkStmts_cons` shows that with the fuel `walkStmts` supplies the
traversal satisfies the fuel-free breadth-first recurrence. -/
def walkStmtsF (fuel : Nat) (queue : List Stmt) : List Stmt :=
  match queue with
  | [] => []
  | s :: rest =>
    match fuel with
    | 0 => []
    | fuel + 1 => s :: walkStmtsF fuel (rest ++ s.childStmts)

/-- Breadth-first traversal of a statement queue; the number of statement
nodes reachable from the queue bounds the number of steps. -/
def walkStmts (queue : List Stmt) : List Stmt :=
  walkStmtsF (sizeStmts queue) queue

theorem walkStmtsF_congr :
    ∀ (f f' : Nat) (q : List Stmt), sizeStmts q ≤ f → sizeStmts q ≤ f' →
      walkStmtsF f q = walkStmtsF f' q := by
  intro f
  induction f using Nat.strong_induction_on with
  | _ f ih =>
    intro f' q hf hf'
    match q with
    | [] => simp [walkStmtsF]
    | s :: rest =>
      have hs := stmt_size_pos s
      have hsum : sizeStmts (s :: rest) = s.size + sizeStmts rest := rfl
      match f, f' with
      | 0, _ => omega
      | _ + 1, 0 => omega
      | f1 + 1, f2 + 1 =>
        simp only [walkStmtsF, List.cons.injEq, true_and]
        have hchild := childStmts_size_lt s
        have hb : sizeStmts (rest ++ s.childStmts) ≤ f1 := by
          rw [sizeStmts_append]; omega
        have hb' : sizeStmts (rest ++ s.childStmts) ≤ f2 := by
          rw [sizeStmts_append]; omega
        exact ih f1 (by omega) f2 _ hb hb'

/-- The breadth-first recurrence: the fuel in `walkStmts` is never exhausted. -/
theorem walkStmts_cons (s : Stmt) (rest : List Stmt) :
    walkStmts (s :: rest) = s :: walkStmts (rest ++ s.childStmts) := by
  have hs := stmt_size_pos s
  have hchild := childStmts_size_lt s
  have h1 : sizeStmts (s :: rest) = s.size + sizeStmts rest := rfl
  unfold walkStmts
  rcases hx : sizeStmts (s :: rest) with _ | f
  · omega
  · simp only [walkStmtsF, List.cons.injEq, true_and]
    apply walkStmtsF_congr
    · rw [sizeStmts_append]; omega
    · exact le_refl _

/-- `ast.walk(tree)`: breadth-first over all nodes, root first.  Restricted
to the module root and statements (the only nodes that yield records). -/
def walk (m : PyModule) : List WNode :=
  WNode.moduleNode m.body :: (walkStmts m.body).map WNode.stmtNode

/-- The `body` attribute of a node (empty for nodes that have none). -/
def WNode.nodeBody : WNode → List Stmt
  | .moduleNode b => b
  | .stmtNode s => s.childStmts

/-- `getattr(node, 'lineno', 0)`: the module root has no `lineno`. -/
def WNode.linenoAttr : WNode → Nat
  | .moduleNode _ => 0
  | .stmtNode s => s.pyLineno

/-- `getattr(node, 'name', None)`: only class and function nodes have one. -/
def WNode.nameAttr : WNode → Option String
  | .stmtNode (.functionDef n _ _) => some n
  | .stmtNode (.asyncFunctionDef n _ _) => some n
  | .stmtNode (.classDef n _ _) => some n
  | _ => none

/-- The category of a declaration node (`_DECLARE_TYPES` membership). -/
def WNode.declCat : WNode → Option Cat
  | .moduleNode _ => some .module
  | .stmtNode (.functionDef ..) => some .functionDef
  | .stmtNode (.asyncFunctionDef ..) => some .asyncFunctionDef
  | .stmtNode (.classDef ..) => some .classDef
  | _ => none

/-- `ast.get_docstring(node, clean=True)`: the cleaned string if the first
body statement is a bare string-literal expression, otherwise `None`. -/
def get_docstring (n : WNode) : Option String :=
  match n.nodeBody.head? with
  | some (.exprStr s _) => some (cleandoc s)
  | _ => none

/-- `node.body[0].lineno`.  The parser never produces a class or function
with an empty body, so the `0` default is unreachable on parser output. -/
def WNode.firstBodyLineno (n : WNode) : Nat :=
  match n.nodeBody.head? with
  | some s => s.pyLineno
  | none => 0

/-- One documentation record: the tuple
`(node, getattr(node, 'name', None), lineno, docstring)` with the node
abstracted to its category. -/
structure Rec where
  cat : Cat
  name : Option String
  lineno : Nat
  body : String
deriving DecidableEq, Repr

/-! ### Extractor of `src/docs2md/docs2md.py` (`parse_docstrings`, `get_imports`) -/

/-- The per-declaration part of `docs2md.parse_docstrings` (lines 158-181):
docstring with `**UNDOCUMENTED**` fallback; for functions, the anchor moves
to `node.body[0].lineno` and the declaration header lines are sliced out,
dedented and prepended as a fenced code block. -/
def processDeclare (sourceLines : List String) (n : WNode) : Option Rec :=
  match n.declCat with
  | none => none
  | some c =>
    let docstring := pyOr (get_docstring n) "**UNDOCUMENTED**"
    let lineno := n.linenoAttr
    if c = .functionDef ∨ c = .asyncFunctionDef then
      let lineno := n.firstBodyLineno
      let decl :=
        if n.linenoAttr = lineno then pySlice sourceLines (lineno - 1) lineno
        else pySlice sourceLines (n.linenoAttr - 1) (lineno - 1)
      let f := dedent (String.intercalate "\n" decl)
      some ⟨c, n.nameAttr, lineno, "```python\n" ++ f ++ "\n```\n" ++ docstring⟩
    else
      some ⟨c, n.nameAttr, lineno, docstring⟩

/-- One event of the extractor generator: a line written to the
side-channel sink, or a yielded record. -/
inductive ExtEvent where
  | sinkLine (s : String)
  | record (r : Rec)
deriving DecidableEq, Repr

/-- `docs2md.get_imports` (lines 185-216): an `ImportFrom` node yields one
record named by its module path (`'?'` fallback), a plain `Import` node one
record naming the comma-joined aliases; both at line 0 with empty body.
When a sink is supplied, the line `├<name>\n` is written before yielding. -/
def get_imports (n : WNode) (sink : Bool) : List ExtEvent :=
  match n with
  | .stmtNode (.importFrom m _) =>
    let imports := pyOr m "?"
    (if sink then [ExtEvent.sinkLine ("├" ++ imports ++ "\n")] else []) ++
      [ExtEvent.record ⟨.importFrom, some imports, 0, ""⟩]
  | .stmtNode (.importPlain names _) =>
    let imports := String.intercalate "," names
    (if sink then [ExtEvent.sinkLine ("├" ++ imports ++ "\n")] else []) ++
      [ExtEvent.record ⟨.importPlain, some imports, 0, ""⟩]
  | _ => []

/-- `docs2md.parse_docstrings` as a generator trace: for every walked node,
its declaration record (if it is one) followed by `get_imports` on it.
The parsed tree is an argument because `ast.parse` is the external parser. -/
def parse_docstrings (source : String) (tree : PyModule) (sink : Bool) : List ExtEvent :=
  let sourceLines := pySplitlines source
  (walk tree).flatMap (fun n =>
    (match processDeclare sourceLines n with
     | some r => [ExtEvent.record r]
     | none => []) ++ get_imports n sink)

/-- The records among the extractor events. -/
def extRecords (evs : List ExtEvent) : List Rec :=
  evs.filterMap (fun e => match e with | .record r => some r | _ => none)

/-- The sink lines among the extractor events, in write order. -/
def extWrites (evs : List ExtEvent) : List String :=
  evs.filterMap (fun e => match e with | .sinkLine s => some s | _ => none)

/-! ### Variant extractor of `src/doc2md.py`

It differs in two places (lines 161-181): the anchor of any declaration
whose first body statement is a string literal is `that statement's lineno
minus the number of lines of the raw string`, and the multi-line declaration
slice is `source_lines[node.lineno - 1:lineno]` (anchor line included).
The line subtraction is on Python ints; on parser output it never goes
below zero, which the `Nat` subtraction here mirrors on that domain. -/

def processDeclareD (sourceLines : List String) (n : WNode) : Option Rec :=
  match n.declCat with
  | none => none
  | some c =>
    let docstring := pyOr (get_docstring n) "**UNDOCUMENTED**"
    let lineno :=
      match n.nodeBody.head? with
      | some (.exprStr s l) => l - (pySplitlines s).length
      | _ => n.linenoAttr
    if c = .functionDef ∨ c = .asyncFunctionDef then
      let decl :=
        if n.linenoAttr = lineno then pySlice sourceLines (lineno - 1) lineno
        else pySlice sourceLines (n.linenoAttr - 1) lineno
      let f := dedent (String.intercalate "\n" decl)
      some ⟨c, n.nameAttr, lineno, "```python\n" ++ f ++ "\n```\n" ++ docstring⟩
    else
      some ⟨c, n.nameAttr, lineno, docstring⟩

/-- `doc2md.parse_docstrings` as a generator trace. -/
def parse_docstringsD (source : String) (tree : PyModule) (sink : Bool) : List ExtEvent :=
  let sourceLines := pySplitlines source
  (walk tree).flatMap (fun n =>
    (match processDeclareD sourceLines n with
     | some r => [ExtEvent.record r]
     | none => []) ++ get_imports n sink)

/-! ### Renderer of `docs2md.yield_docstrings` (lines 39-89) -/

/-- `_NODE_TYPES`: the heading literal used both as the `groupby` key and in
the emitted headings.  Both import node types map to the same key. -/
def NODE_TYPES : Cat → String
  | .module => "# Module"
  | .classDef => "\n## Class"
  | .functionDef => "\n### Function"
  | .asyncFunctionDef => "\n### Async Function"
  | .importFrom => "\nImports"
  | .importPlain => "\nImports"

/-- Python's `sorted` is a stable sort; insertion placing each element after
all earlier elements with key less than or equal to its own is the stable
ascending insertion step. -/
def insertRec (x : Rec) : List Rec → List Rec
  | [] => [x]
  | y :: ys => if y.lineno ≤ x.lineno then y :: insertRec x ys else x :: y :: ys

/-- `sorted(records, key=lambda x: x[2])`: stable sort on the line number. -/
def sortRecs (l : List Rec) : List Rec :=
  l.foldl (fun acc x => insertRec x acc) []

/-- Helper for `groupby`: `cur` is the current run, in reverse. -/
def groupbyAux (key : Rec → String) (k : String) (cur : List Rec) :
    List Rec → List (String × List Rec)
  | [] => [(k, cur.reverse)]
  | x :: xs =>
    if key x = k then groupbyAux key k (x :: cur) xs
    else (k, cur.reverse) :: groupbyAux key (key x) [x] xs

/-- `itertools.groupby`: maximal runs of consecutive elements sharing a key. -/
def groupby (key : Rec → String) : List Rec → List (String × List Rec)
  | [] => []
  | x :: xs => groupbyAux key (key x) [x] xs

/-- The chunks the renderer loop body emits for one record, threading the
`first_import` flag: a module heading, the one-time `## Imports` heading
plus a bullet, or a heading with a line number (`?` when the line number is
falsy), always followed by the record body and a newline. -/
def renderOne (module : String) (typeKey : String) (first : Bool) (r : Rec) :
    Bool × List String :=
  let name := pyOr r.name module
  if typeKey = "# Module" then
    (first, [typeKey ++ " '" ++ name ++ "'\n", r.body ++ "\n"])
  else if typeKey = "\nImports" then
    if first then (false, ["## Imports\n", "* " ++ name, r.body ++ "\n"])
    else (false, ["* " ++ name, r.body ++ "\n"])
  else
    (first,
      [typeKey ++ " '" ++ name ++ "'\nline " ++
        (if r.lineno = 0 then "?" else toString r.lineno) ++ "\n\n",
       r.body ++ "\n"])

/-- The inner `for` loop over one `groupby` group. -/
def renderGroup (module typeKey : String) (first : Bool) : List Rec → Bool × List String
  | [] => (first, [])
  | r :: rs =>
    let p := renderOne module typeKey first r
    let q := renderGroup module typeKey p.1 rs
    (q.1, p.2 ++ q.2)

/-- The outer `for` loop over the `groupby` groups. -/
def renderGroups (module : String) (first : Bool) : List (String × List Rec) → List String
  | [] => []
  | (k, g) :: gs =>
    let p := renderGroup module k first g
    p.2 ++ renderGroups module p.1 gs

/-- `docs2md.yield_docstrings` on a source string: extract, sort by line
number, group by heading key, render.  `module` is the fallback name. -/
def yield_docstrings (source : String) (tree : PyModule) (module : String) (sink : Bool) :
    List String :=
  let recs := sortRecs (extRecords (parse_docstrings source tree sink))
  renderGroups module true (groupby (fun r => NODE_TYPES r.cat) recs)

/-! ### Observable pipeline trace and parse failure -/

/-- An externally observable event of one `yield_docstrings` run with a sink
attached: a side-channel write or a yielded chunk. -/
inductive Event where
  | sinkWrite (s : String)
  | chunk (s : String)
deriving DecidableEq, Repr

/-- The event trace of `yield_docstrings` with a sink supplied.  `sorted` at
docs2md.py line 68 consumes the whole extractor generator before the render
loop starts, so every sink write happens before the first chunk. -/
def yield_docstrings_trace (source : String) (tree : PyModule) (module : String) :
    List Event :=
  let evs := parse_docstrings source tree true
  (extWrites evs).map Event.sinkWrite ++
    (renderGroups module true
      (groupby (fun r => NODE_TYPES r.cat) (sortRecs (extRecords evs)))).map Event.chunk

/-- The render loops fused: since every record of a `groupby` group shares
the group key, the nested `for type_, group / for record` loops emit the
same chunks as one pass over the sorted records, computing the key per
record.  `renderGroups_groupby` proves this. -/
def renderFlat (module : String) (first : Bool) : List Rec → Bool × List String
  | [] => (first, [])
  | r :: rs =>
    let p := renderOne module (NODE_TYPES r.cat) first r
    let q := renderFlat module p.1 rs
    (q.1, p.2 ++ q.2)

/-- The error `ast.parse` raises on malformed source (external parser). -/
structure ParseError where
  msg : String
deriving DecidableEq, Repr

/-- The extractor given the external parse result: `ast.parse` is the first
statement of `parse_docstrings`, so its failure propagates before any event. -/
def parse_docstrings_checked (source : String) (parsed : Except ParseError PyModule)
    (sink : Bool) : Except ParseError (List ExtEvent) :=
  match parsed with
  | .error e => .error e
  | .ok tree => .ok (parse_docstrings source tree sink)

/-- The whole pipeline given the external parse result: the renderer's
`sorted(parse_docstrings(...))` call forces the extractor, so a parse error
escapes before any write or chunk. -/
def yield_docstrings_checked (source : String) (parsed : Except ParseError PyModule)
    (module : String) : Except ParseError (List Event) :=
  match parsed with
  | .error e => .error e
  | .ok tree => .ok (yield_docstrings_trace source tree module)

/-! ### Renderer lemmas: the fused loop -/

theorem renderGroup_eq_flat (module k : String) :
    ∀ (g : List Rec) (first : Bool), (∀ r ∈ g, NODE_TYPES r.cat = k) →
      renderGroup module k first g = renderFlat module first g := by
  intro g
  induction g with
  | nil => intro first _; rfl
  | cons r rs ih =>
    intro first hk
    have hr : NODE_TYPES r.cat = k := hk r (by simp)
    simp only [renderGroup, renderFlat, hr]
    rw [ih _ (fun x hx => hk x (by simp [hx]))]

theorem renderFlat_append (module : String) :
    ∀ (a b : List Rec) (first : Bool),
      renderFlat module first (a ++ b) =
        ((renderFlat module (renderFlat module first a).1 b).1,
          (renderFlat module first a).2 ++ (renderFlat module (renderFlat module first a).1 b).2) := by
  intro a
  induction a with
  | nil => intro b first; simp [renderFlat]
  | cons r rs ih =>
    intro b first
    simp only [List.cons_append, renderFlat, List.append_eq]
    rw [ih]
    simp [List.append_assoc]

theorem renderGroups_groupbyAux (module : String) (key : Rec → String) :
    ∀ (xs cur : List Rec) (k : String) (first : Bool),
      (∀ r ∈ cur, NODE_TYPES r.cat = k) → (key = fun r => NODE_TYPES r.cat) →
      renderGroups module first (groupbyAux key k cur xs) =
        (renderFlat module first (cur.reverse ++ xs)).2 := by
  intro xs
  induction xs with
  | nil =>
    intro cur k first hcur hkey
    have hrev : ∀ r ∈ cur.reverse, NODE_TYPES r.cat = k := by
      intro r hr; exact hcur r (List.mem_reverse.mp hr)
    simp only [groupbyAux, renderGroups, List.append_nil]
    rw [renderGroup_eq_flat module k _ first hrev]
  | cons x xs ih =>
    intro cur k first hcur hkey
    by_cases hx : key x = k
    · have hcur2 : ∀ r ∈ x :: cur, NODE_TYPES r.cat = k := by
        intro r hr
        rcases List.mem_cons.mp hr with h | h
        · subst h; simp only [hkey] at hx; exact hx
        · exact hcur r h
      simp only [groupbyAux]
      rw [if_pos hx, ih (x :: cur) k first hcur2 hkey]
      simp [List.append_assoc]
    · have hrev : ∀ r ∈ cur.reverse, NODE_TYPES r.cat = k := by
        intro r hr; exact hcur r (List.mem_reverse.mp hr)
      have hxs : ∀ r ∈ ([x] : List Rec), NODE_TYPES r.cat = key x := by
        intro r hr
        have h := List.mem_singleton.mp hr
        subst h; simp only [hkey]
      simp only [groupbyAux]
      rw [if_neg hx]
      simp only [renderGroups]
      rw [renderGroup_eq_flat module k _ first hrev,
        ih [x] (key x) _ hxs hkey,
        renderFlat_append module cur.reverse (x :: xs) first]
      simp

/-- Fusing the two render loops: rendering the `groupby` groups emits the
same chunks as a single pass over the sorted record list. -/
theorem renderGroups_groupby (module : String) (l : List Rec) (first : Bool) :
    renderGroups module first (groupby (fun r => NODE_TYPES r.cat) l) =
      (renderFlat module first l).2 := by
  cases l with
  | nil => rfl
  | cons x xs =>
    simp only [groupby]
    rw [renderGroups_groupbyAux module _ xs [x] _ first ?_ rfl]
    · rfl
    · intro r hr
      rcases List.mem_singleton.mp hr with h
      subst h; rfl

/-- `yield_docstrings` through the fused render loop. -/
theorem yield_docstrings_eq_flat (source : String) (tree : PyModule) (module : String)
    (sink : Bool) :
    yield_docstrings source tree module sink =
      (renderFlat module true (sortRecs (extRecords (parse_docstrings source tree sink)))).2 := by
  unfold yield_docstrings
  exact renderGroups_groupby module _ true

/-! ### Sorting lemmas -/

theorem mem_insertRec {x y : Rec} : ∀ {l : List Rec}, y ∈ insertRec x l ↔ y = x ∨ y ∈ l := by
  intro l
  induction l with
  | nil => simp [insertRec]
  | cons z zs ih =>
    simp only [insertRec]
    by_cases h : z.lineno ≤ x.lineno
    · simp only [if_pos h, List.mem_cons, ih]
      tauto
    · simp only [if_neg h, List.mem_cons]

theorem pairwise_insertRec {x : Rec} :
    ∀ {l : List Rec}, l.Pairwise (fun a b => a.lineno ≤ b.lineno) →
      (insertRec x l).Pairwise (fun a b => a.lineno ≤ b.lineno) := by
  intro l
  induction l with
  | nil => intro _; simp [insertRec]
  | cons y ys ih =>
    intro h
    rcases List.pairwise_cons.mp h with ⟨hy, hys⟩
    simp only [insertRec]
    by_cases hc : y.lineno ≤ x.lineno
    · simp only [if_pos hc]
      refine List.pairwise_cons.mpr ⟨?_, ih hys⟩
      intro z hz
      rcases mem_insertRec.mp hz with h1 | h1
      · subst h1; exact hc
      · exact hy z h1
    · simp only [if_neg hc]
      have hxy : x.lineno ≤ y.lineno := Nat.le_of_not_le hc
      refine List.pairwise_cons.mpr ⟨?_, h⟩
      intro z hz
      rcases List.mem_cons.mp hz with h1 | h1
      · subst h1; exact hxy
      · exact Nat.le_trans hxy (hy z h1)

theorem sortRecs_pairwise (l : List Rec) :
    (sortRecs l).Pairwise (fun a b => a.lineno ≤ b.lineno) := by
  suffices h : ∀ acc : List Rec, acc.Pairwise (fun a b => a.lineno ≤ b.lineno) →
      (l.foldl (fun acc x => insertRec x acc) acc).Pairwise (fun a b => a.lineno ≤ b.lineno) by
    exact h [] (by simp)
  induction l with
  | nil => intro acc hacc; exact hacc
  | cons x xs ih => intro acc hacc; exact ih _ (pairwise_insertRec hacc)

theorem mem_sortRecs {a : Rec} {l : List Rec} : a ∈ sortRecs l ↔ a ∈ l := by
  suffices h : ∀ (l acc : List Rec),
      (a ∈ l.foldl (fun acc x => insertRec x acc) acc ↔ a ∈ l ∨ a ∈ acc) by
    rw [sortRecs, h l []]; simp
  intro l
  induction l with
  | nil => intro acc; simp
  | cons x xs ih =>
    intro acc
    simp only [List.foldl_cons, ih, mem_insertRec, List.mem_cons]
    tauto

/-! ### Groupby lemmas -/

theorem groupbyAux_sublist (key : Rec → String) :
    ∀ (xs cur : List Rec) (k : String) (kg : String × List Rec),
      kg ∈ groupbyAux key k cur xs → kg.2.Sublist (cur.reverse ++ xs) := by
  intro xs
  induction xs with
  | nil =>
    intro cur k kg hkg
    simp only [groupbyAux, List.mem_singleton] at hkg
    subst hkg
    simp
  | cons x xs ih =>
    intro cur k kg hkg
    by_cases hx : key x = k
    · simp only [groupbyAux, if_pos hx] at hkg
      have := ih (x :: cur) k kg hkg
      simpa [List.append_assoc] using this
    · simp only [groupbyAux, if_neg hx, List.mem_cons] at hkg
      rcases hkg with h | h
      · subst h
        exact List.sublist_append_left _ _
      · have h2 := ih [x] (key x) kg h
        simp only [List.reverse_singleton, List.singleton_append] at h2
        exact h2.trans (List.sublist_append_right _ _)

theorem groupby_sublist (key : Rec → String) (l : List Rec) (kg : String × List Rec)
    (h : kg ∈ groupby key l) : kg.2.Sublist l := by
  cases l with
  | nil => simp [groupby] at h
  | cons x xs =>
    have := groupbyAux_sublist key xs [x] (key x) kg h
    simpa using this

/-! ### Chunk distinctness: no chunk other than the one emitted by the
`first_import` branch can equal the `## Imports` heading, except a record
body that is literally the heading text. -/

theorem str_data_ext {s t : String} (h : s.data = t.data) : s = t := by
  cases s; cases t; exact congrArg String.mk h

theorem append_newline_ne {s t : String} (h : s ≠ t) : s ++ "\n" ≠ t ++ "\n" := by
  intro he
  apply h
  have h2 : s.data ++ "\n".data = t.data ++ "\n".data := congrArg String.data he
  exact str_data_ext (List.append_cancel_right h2)

theorem body_chunk_ne_imports {b : String} (h : b ≠ "## Imports") :
    b ++ "\n" ≠ "## Imports\n" := append_newline_ne h

theorem module_heading_ne_imports (name : String) :
    "# Module '" ++ name ++ "'\n" ≠ "## Imports\n" := by
  intro h
  have h2 : (("# Module '" ++ name ++ "'\n").data.get? 1) =
      (("## Imports\n" : String).data.get? 1) := by rw [h]
  have h3 : (some ' ' : Option Char) = some '#' := h2
  exact absurd h3 (by decide)

theorem class_heading_ne_imports (name s : String) :
    "\n## Class '" ++ name ++ "'\nline " ++ s ++ "\n\n" ≠ "## Imports\n" := by
  intro h
  have h2 : (("\n## Class '" ++ name ++ "'\nline " ++ s ++ "\n\n").data.get? 0) =
      (("## Imports\n" : String).data.get? 0) := by rw [h]
  have h3 : (some '\n' : Option Char) = some '#' := h2
  exact absurd h3 (by decide)

theorem function_heading_ne_imports (name s : String) :
    "\n### Function '" ++ name ++ "'\nline " ++ s ++ "\n\n" ≠ "## Imports\n" := by
  intro h
  have h2 : (("\n### Function '" ++ name ++ "'\nline " ++ s ++ "\n\n").data.get? 0) =
      (("## Imports\n" : String).data.get? 0) := by rw [h]
  have h3 : (some '\n' : Option Char) = some '#' := h2
  exact absurd h3 (by decide)

theorem async_heading_ne_imports (name s : String) :
    "\n### Async Function '" ++ name ++ "'\nline " ++ s ++ "\n\n" ≠ "## Imports\n" := by
  intro h
  have h2 : (("\n### Async Function '" ++ name ++ "'\nline " ++ s ++ "\n\n").data.get? 0) =
      (("## Imports\n" : String).data.get? 0) := by rw [h]
  have h3 : (some '\n' : Option Char) = some '#' := h2
  exact absurd h3 (by decide)

theorem bullet_ne_imports (name : String) : "* " ++ name ≠ "## Imports\n" := by
  intro h
  have h2 : (("* " ++ name).data.get? 0) = (("## Imports\n" : String).data.get? 0) := by rw [h]
  have h3 : (some '*' : Option Char) = some '#' := h2
  exact absurd h3 (by decide)

/-- Number of chunks equal to the imports-section heading. -/
def countH : List String → Nat
  | [] => 0
  | c :: cs => (if c = "## Imports\n" then 1 else 0) + countH cs

theorem countH_append (a b : List String) : countH (a ++ b) = countH a + countH b := by
  induction a with
  | nil => simp [countH]
  | cons c cs ih => simp [countH, ih]; omega

/-- Whether a record came from an import statement. -/
def isImportCat : Cat → Bool
  | .importFrom => true
  | .importPlain => true
  | _ => false

theorem countH_renderOne (m : String) (r : Rec) (first : Bool)
    (hbr : r.body ≠ "## Imports") :
    countH (renderOne m (NODE_TYPES r.cat) first r).2 =
      (if isImportCat r.cat = true ∧ first = true then 1 else 0) ∧
    (renderOne m (NODE_TYPES r.cat) first r).1 = (!(isImportCat r.cat) && first) := by
  rcases hcat : r.cat <;> cases first <;>
    simp [renderOne, NODE_TYPES, isImportCat, countH,
      module_heading_ne_imports, class_heading_ne_imports, function_heading_ne_imports,
      async_heading_ne_imports, bullet_ne_imports, body_chunk_ne_imports hbr]

theorem renderOne_import (m : String) (r : Rec) (h : isImportCat r.cat = true) :
    renderOne m (NODE_TYPES r.cat) true r =
      (false, ["## Imports\n", "* " ++ pyOr r.name m, r.body ++ "\n"]) ∧
    renderOne m (NODE_TYPES r.cat) false r =
      (false, ["* " ++ pyOr r.name m, r.body ++ "\n"]) := by
  rcases hcat : r.cat <;> simp [isImportCat, hcat] at h ⊢ <;>
    simp [renderOne, NODE_TYPES]

theorem renderFlat_false_no_heading (m : String) :
    ∀ l : List Rec, (∀ r ∈ l, r.body ≠ "## Imports") →
      countH (renderFlat m false l).2 = 0 ∧ (renderFlat m false l).1 = false := by
  intro l
  induction l with
  | nil => intro _; exact ⟨rfl, rfl⟩
  | cons r rs ih =>
    intro hb
    have hbr : r.body ≠ "## Imports" := hb r (List.mem_cons_self r rs)
    have hone := countH_renderOne m r false hbr
    have htail := ih (fun x hx => hb x (List.mem_cons_of_mem _ hx))
    have hflag : (renderOne m (NODE_TYPES r.cat) false r).1 = false := by
      rw [hone.2]; simp
    simp only [renderFlat, hflag]
    refine ⟨?_, htail.2⟩
    rw [countH_append, hone.1, htail.1]
    simp

theorem renderFlat_true_heading (m : String) :
    ∀ l : List Rec, (∀ r ∈ l, r.body ≠ "## Imports") →
      ((l.find? (fun r => isImportCat r.cat) = none →
        countH (renderFlat m true l).2 = 0 ∧ (renderFlat m true l).1 = true) ∧
      (∀ r0, l.find? (fun r => isImportCat r.cat) = some r0 →
        ∃ A B, (renderFlat m true l).2 = A ++ "## Imports\n" :: ("* " ++ pyOr r0.name m) :: B ∧
          countH A = 0 ∧ countH B = 0)) := by
  intro l
  induction l with
  | nil =>
    intro _
    refine ⟨fun _ => ⟨rfl, rfl⟩, ?_⟩
    intro r0 h
    simp at h
  | cons r rs ih =>
    intro hb
    have hbr : r.body ≠ "## Imports" := hb r (List.mem_cons_self r rs)
    have htail := ih (fun x hx => hb x (List.mem_cons_of_mem _ hx))
    by_cases himp : isImportCat r.cat = true
    · have hfind : (r :: rs).find? (fun r => isImportCat r.cat) = some r :=
        List.find?_cons_of_pos _ (by simpa using himp)
      have hchunks := renderOne_import m r himp
      have hrest := renderFlat_false_no_heading m rs
        (fun x hx => hb x (List.mem_cons_of_mem _ hx))
      constructor
      · intro hnone
        rw [hfind] at hnone
        exact absurd hnone (by simp)
      · intro r0 hsome
        rw [hfind] at hsome
        have hr0 : r = r0 := by injection hsome
        subst hr0
        refine ⟨[], (r.body ++ "\n") :: (renderFlat m false rs).2, ?_, rfl, ?_⟩
        · simp [renderFlat, hchunks.1]
        · simp only [countH]
          rw [hrest.1, if_neg (body_chunk_ne_imports hbr)]
    · have hfind : (r :: rs).find? (fun r => isImportCat r.cat) =
          rs.find? (fun r => isImportCat r.cat) :=
        List.find?_cons_of_neg _ (by simpa using himp)
      have hone := countH_renderOne m r true hbr
      have hflag : (renderOne m (NODE_TYPES r.cat) true r).1 = true := by
        rw [hone.2]
        simp [Bool.eq_false_iff.mpr himp]
      have hcount : countH (renderOne m (NODE_TYPES r.cat) true r).2 = 0 := by
        rw [hone.1, if_neg]
        simp [himp]
      constructor
      · intro hnone
        rw [hfind] at hnone
        have := htail.1 hnone
        simp only [renderFlat, hflag]
        refine ⟨?_, this.2⟩
        rw [countH_append, hcount, this.1]
      · intro r0 hsome
        rw [hfind] at hsome
        obtain ⟨A, B, hAB, hA, hB⟩ := htail.2 r0 hsome
        refine ⟨(renderOne m (NODE_TYPES r.cat) true r).2 ++ A, B, ?_, ?_, hB⟩
        · simp only [renderFlat, hflag, hAB]
          simp [List.append_assoc]
        · rw [countH_append, hcount, hA]

/-- In a trace made of all sink writes followed by all chunks, any write
index is smaller than any chunk index. -/
theorem writes_before_chunks (W C : List String) (i j : Nat) (si sj : String)
    (hi : (W.map Event.sinkWrite ++ C.map Event.chunk).get? i = some (.sinkWrite si))
    (hj : (W.map Event.sinkWrite ++ C.map Event.chunk).get? j = some (.chunk sj)) :
    i < j := by
  rcases Nat.lt_or_ge i W.length with hiW | hiW
  · rcases Nat.lt_or_ge j W.length with hjW | hjW
    · rw [List.get?_append (by simpa using hjW), List.get?_map] at hj
      cases h2 : W.get? j <;> simp [h2] at hj
    · exact Nat.lt_of_lt_of_le hiW hjW
  · rw [List.get?_append_right (by simpa using hiW), List.get?_map] at hi
    cases h2 : C.get? (i - (W.map Event.sinkWrite).length) <;> simp [h2] at hi

/-! ### Claim theorems -/

/-- C5: for every malformed source text — modeled as the external parser
`ast.parse` returning a `ParseError`, since the parser is an out-of-scope
collaborator — the extractor propagates the error and produces no records,
no sink writes and no chunks: both pipelines return the bare error with no
partial output of any kind. -/
theorem c5_parse_error_propagates (source : String) (e : ParseError) (module : String)
    (sink : Bool) :
    parse_docstrings_checked source (.error e) sink = .error e ∧
    yield_docstrings_checked source (.error e) module = .error e :=
  ⟨rfl, rfl⟩

/-- C6: every import statement node yields exactly one record, at line 0
with empty body; a `from` import is named by its dotted module path with the
`?` fallback when the path is absent (or empty), a plain import by the
comma-joined list of imported module names.  The statement's true source
line `l` is ignored. -/
theorem c6_import_record (m : Option String) (names : List String) (l : Nat) (sink : Bool) :
    extRecords (get_imports (.stmtNode (.importFrom m l)) sink) =
      [⟨.importFrom, some (pyOr m "?"), 0, ""⟩] ∧
    extRecords (get_imports (.stmtNode (.importPlain names l)) sink) =
      [⟨.importPlain, some (String.intercalate "," names), 0, ""⟩] := by
  cases sink <;> exact ⟨rfl, rfl⟩

/-- C7: a module, class, function or async-function node with no
documentation comment gets body text exactly `**UNDOCUMENTED**`; for
function and async-function records the sentinel is prefixed by the fenced
signature code block. -/
theorem c7_undocumented_sentinel (sourceLines : List String) (n : WNode) (r : Rec)
    (hdoc : get_docstring n = none) (hrec : processDeclare sourceLines n = some r) :
    ((r.cat = .module ∨ r.cat = .classDef) → r.body = "**UNDOCUMENTED**") ∧
    ((r.cat = .functionDef ∨ r.cat = .asyncFunctionDef) →
      ∃ decl : String, r.body = "```python\n" ++ decl ++ "\n```\n" ++ "**UNDOCUMENTED**") := by
  unfold processDeclare at hrec
  rcases hc : n.declCat with _ | c
  · rw [hc] at hrec; exact absurd hrec (by simp)
  · rw [hc] at hrec
    simp only [hdoc, pyOr] at hrec
    by_cases hf : c = Cat.functionDef ∨ c = Cat.asyncFunctionDef
    · rw [if_pos hf] at hrec
      have hr := Option.some.inj hrec
      subst hr
      constructor
      · intro hmc
        rcases hf with h | h <;> rcases hmc with h2 | h2 <;> simp [h] at h2
      · intro _
        exact ⟨_, rfl⟩
    · rw [if_neg hf] at hrec
      have hr := Option.some.inj hrec
      subst hr
      constructor
      · intro _; rfl
      · intro hmc
        exact absurd hmc hf

/-- Witness for C7: an undocumented class record carries the bare sentinel. -/
theorem c7_undocumented_sentinel_witness :
    (Rec.mk Cat.classDef (some "C") 1 "**UNDOCUMENTED**").body = "**UNDOCUMENTED**" :=
  (c7_undocumented_sentinel [] (.stmtNode (.classDef "C" 1 [.other 2 []]))
    (Rec.mk Cat.classDef (some "C") 1 "**UNDOCUMENTED**") (by decide) (by decide)).1
    (Or.inr (by decide))

/-- C10: with a side-channel sink supplied, every sink write precedes every
yielded chunk in the observable trace of one `yield_docstrings` run: the
`sorted` call consumes the entire extractor generator (performing all sink
writes) before the render loop yields its first chunk. -/
theorem c10_sink_before_chunks (source : String) (tree : PyModule) (module : String)
    (i j : Nat) (si sj : String)
    (hi : (yield_docstrings_trace source tree module).get? i = some (.sinkWrite si))
    (hj : (yield_docstrings_trace source tree module).get? j = some (.chunk sj)) :
    i < j := by
  simp only [yield_docstrings_trace] at hi hj
  exact writes_before_chunks _ _ i j si sj hi hj

/-- Witness for C10: a one-import module writes `├os` at trace index 0 and
yields its first chunk at index 1. -/
theorem c10_sink_before_chunks_witness :
    (yield_docstrings_trace "import os" ⟨[.importPlain ["os"] 1]⟩ "m").get? 0 =
      some (.sinkWrite "├os\n") ∧
    (yield_docstrings_trace "import os" ⟨[.importPlain ["os"] 1]⟩ "m").get? 1 =
      some (.chunk "# Module 'm'\n") ∧
    (0 : Nat) < 1 :=
  ⟨by decide, by decide,
    c10_sink_before_chunks "import os" ⟨[.importPlain ["os"] 1]⟩ "m" 0 1 "├os\n"
      "# Module 'm'\n" (by decide) (by decide)⟩

/-- Counterexample to C3 as stated: in `docs2md.parse_docstrings` a class
whose documentation comment spans two lines keeps its anchor at the class
declaration line (1), not at the line the comment text begins on (2, the
string statement's reported line under the parser contract): the anchor of
module and class records is never moved. -/
theorem c3_counterexample :
    (extRecords (parse_docstrings "class C:\n    \"\"\"a\n    b\"\"\""
      ⟨[.classDef "C" 1 [.exprStr "a\n    b" 2]]⟩ false)).get? 1 =
      some ⟨.classDef, some "C", 1, "a\nb"⟩ ∧ (1 : Nat) ≠ 2 := by decide

/-- C3 amended: only function and async-function records move their anchor
in `docs2md.parse_docstrings`, and they move it to the first body
statement's reported line — for a documented function, the line its comment
text begins on — with no subtraction of the comment's line count; module
and class records keep the default anchor (declaration line, 0 for the
module).  In `doc2md.parse_docstrings` every declaration whose first body
statement is a string literal instead gets the statement's reported line
minus the number of lines of the raw comment text. -/
theorem c3_anchor_rules (sourceLines : List String) (name s : String) (l L : Nat)
    (rest : List Stmt) :
    (processDeclare sourceLines
        (.stmtNode (.functionDef name l (.exprStr s L :: rest)))).map Rec.lineno = some L ∧
    (processDeclare sourceLines
        (.stmtNode (.asyncFunctionDef name l (.exprStr s L :: rest)))).map Rec.lineno = some L ∧
    (processDeclare sourceLines
        (.stmtNode (.classDef name l (.exprStr s L :: rest)))).map Rec.lineno = some l ∧
    (processDeclare sourceLines (.moduleNode (.exprStr s L :: rest))).map Rec.lineno = some 0 ∧
    (processDeclareD sourceLines
        (.stmtNode (.classDef name l (.exprStr s L :: rest)))).map Rec.lineno =
      some (L - (pySplitlines s).length) ∧
    (processDeclareD sourceLines (.moduleNode (.exprStr s L :: rest))).map Rec.lineno =
      some (L - (pySplitlines s).length) := by
  refine ⟨rfl, rfl, rfl, rfl, rfl, rfl⟩

/-- Counterexample to C9 as stated: a module record is a non-import record
whose line number is 0 at render time, yet the renderer emits its heading
with no `?` placeholder anywhere — module headings carry no line number. -/
theorem c9_counterexample :
    yield_docstrings "" ⟨[]⟩ "m" false = ["# Module 'm'\n", "**UNDOCUMENTED**\n"] ∧
    ((yield_docstrings "" ⟨[]⟩ "m" false).all (fun c => !(c.data.contains '?'))) = true := by
  decide

/-- C9 amended: for class, function and async-function records — the
non-import records whose heading carries a line number — a zero (falsy)
line number renders as the literal placeholder `?`, never as `0`; module
records render their heading with no line number at all. -/
theorem c9_line_placeholder (module : String) (first : Bool) (r : Rec)
    (h0 : r.lineno = 0)
    (hcat : r.cat = .classDef ∨ r.cat = .functionDef ∨ r.cat = .asyncFunctionDef) :
    (renderOne module (NODE_TYPES r.cat) first r).2 =
      [NODE_TYPES r.cat ++ " '" ++ pyOr r.name module ++ "'\nline ?\n\n", r.body ++ "\n"] ∧
    (renderOne module (NODE_TYPES r.cat) first r).1 = first := by
  rcases hcat with h | h | h <;> rw [h] <;> simp [renderOne, NODE_TYPES, h0] <;>
    (rw [String.append_assoc, String.append_assoc]; congr 1)

/-- Witness for C9: a class record at line 0 renders `line ?`. -/
theorem c9_line_placeholder_witness :
    (renderOne "m" (NODE_TYPES Cat.classDef) true ⟨.classDef, some "C", 0, "x"⟩).2 =
      ["\n## Class 'C'\nline ?\n\n", "x\n"] := by
  have h := (c9_line_placeholder "m" true ⟨.classDef, some "C", 0, "x"⟩ rfl (Or.inl rfl)).1
  rw [h]
  decide

/-- Counterexample to C8 as stated: on Scenario A's source the rendered
output does not begin with `# Module 'fallback'\n\nModule doc\n` followed by
`## Imports\n* os\n\n` — there is no blank line after the module heading and
only one newline after the bullet. -/
theorem c8_counterexample :
    (("# Module 'fallback'\n\nModule doc\n## Imports\n* os\n\n" : String).data.isPrefixOf
      (String.join (yield_docstrings "\"\"\"Module doc\"\"\"\nimport os\n"
        ⟨[.exprStr "Module doc" 1, .importPlain ["os"] 2]⟩ "fallback" false)).data) = false := by
  decide

/-- C8 amended: Scenario A's source, rendered with fallback name
`fallback`, yields exactly the chunks `# Module 'fallback'\n`,
`Module doc\n`, `## Imports\n`, `* os`, `\n`, so the concatenated output is
`# Module 'fallback'\nModule doc\n## Imports\n* os\n`; in particular the
module record, having no explicit name, renders with the fallback name. -/
theorem c8_scenario_a :
    yield_docstrings "\"\"\"Module doc\"\"\"\nimport os\n"
        ⟨[.exprStr "Module doc" 1, .importPlain ["os"] 2]⟩ "fallback" false =
      ["# Module 'fallback'\n", "Module doc\n", "## Imports\n", "* os", "\n"] ∧
    String.join (yield_docstrings "\"\"\"Module doc\"\"\"\nimport os\n"
        ⟨[.exprStr "Module doc" 1, .importPlain ["os"] 2]⟩ "fallback" false) =
      "# Module 'fallback'\nModule doc\n## Imports\n* os\n" := by
  refine ⟨by decide, by decide⟩

/-- Counterexample to C4 as stated: for a function whose signature spans
lines 1-3 with its docstring on line 4 (the resolved anchor), the docs2md
record's fenced block holds lines 1-3 only — the fenced block made from the
dedented lines from the node's starting line through the resolved anchor
line inclusive (lines 1-4, docstring line included) is not a prefix of the
record's body text. -/
theorem c4_counterexample :
    (extRecords (parse_docstrings "def f(\n    a\n):\n    \"\"\"d\"\"\""
        ⟨[.functionDef "f" 1 [.exprStr "d" 4]]⟩ false)).get? 1 =
      some ⟨.functionDef, some "f", 4, "```python\ndef f(\n    a\n):\n```\nd"⟩ ∧
    (("```python\n" ++ dedent (String.intercalate "\n"
        (pySlice (pySplitlines "def f(\n    a\n):\n    \"\"\"d\"\"\"") 0 4)) ++
      "\n```\n").data.isPrefixOf
        ("```python\ndef f(\n    a\n):\n```\nd" : String).data) = false := by
  refine ⟨by decide, by decide⟩

/-- C4 amended: a function record's body text begins with a fenced code
block of dedented source lines starting at the node's own line `l`; in
`docs2md.parse_docstrings` the block stops one line short of the resolved
anchor `L` (slice `[l-1:L-1]`, length `L - l`, anchor line excluded), while
in `doc2md.parse_docstrings` it runs through that variant's resolved anchor
`A = L - (line count of the raw comment)` inclusive (slice `[l-1:A]`,
length `A - l + 1`); the block is followed by the documentation text (or
the sentinel). -/
theorem c4_declaration_slice (lines : List String) (name s : String) (l L : Nat)
    (rest : List Stmt)
    (h1 : 1 ≤ l) (h2 : l < L) (h3 : L ≤ lines.length + 1)
    (h4 : l ≠ L - (pySplitlines s).length) (h5 : l ≤ L - (pySplitlines s).length)
    (h6 : L - (pySplitlines s).length ≤ lines.length) :
    processDeclare lines (.stmtNode (.functionDef name l (.exprStr s L :: rest))) =
      some ⟨.functionDef, some name, L,
        "```python\n" ++ dedent (String.intercalate "\n" (pySlice lines (l - 1) (L - 1))) ++
          "\n```\n" ++ pyOr (some (cleandoc s)) "**UNDOCUMENTED**"⟩ ∧
    (pySlice lines (l - 1) (L - 1)).length = L - l ∧
    processDeclareD lines (.stmtNode (.functionDef name l (.exprStr s L :: rest))) =
      some ⟨.functionDef, some name, L - (pySplitlines s).length,
        "```python\n" ++ dedent (String.intercalate "\n"
          (pySlice lines (l - 1) (L - (pySplitlines s).length))) ++
          "\n```\n" ++ pyOr (some (cleandoc s)) "**UNDOCUMENTED**"⟩ ∧
    (pySlice lines (l - 1) (L - (pySplitlines s).length)).length =
      (L - (pySplitlines s).length) - l + 1 := by
  refine ⟨?_, ?_, ?_, ?_⟩
  · unfold processDeclare
    simp only [WNode.declCat, WNode.linenoAttr, Stmt.pyLineno, WNode.firstBodyLineno,
      WNode.nodeBody, Stmt.childStmts, List.head?, WNode.nameAttr, get_docstring,
      eq_self_iff_true, true_or, if_true]
    rw [if_neg (show l ≠ L by omega)]
  · simp only [pySlice, List.length_take, List.length_drop]
    omega
  · unfold processDeclareD
    simp only [WNode.declCat, WNode.linenoAttr, Stmt.pyLineno, WNode.nodeBody,
      Stmt.childStmts, List.head?, WNode.nameAttr, get_docstring,
      eq_self_iff_true, true_or, if_true]
    rw [if_neg h4]
  · simp only [pySlice, List.length_take, List.length_drop]
    omega

/-- Witness for C4: on a four-line source with the signature on lines 1-3
and the docstring on line 4, the docs2md slice has length 3 = 4 - 1. -/
theorem c4_declaration_slice_witness :
    (pySlice (pySplitlines "def f(\n    a\n):\n    \"\"\"d\"\"\"") 0 3).length = 3 :=
  (c4_declaration_slice (pySplitlines "def f(\n    a\n):\n    \"\"\"d\"\"\"") "f" "d" 1 4 []
    (by decide) (by decide) (by decide) (by decide) (by decide) (by decide)).2.1

/-- The section order of the specification (its ordered mapping table):
Module, then Class, then Function/AsyncFunction, then Import.  Defined from
the spec's words, to state the ordering claim against the code. -/
def specCategoryRank : Cat → Nat
  | .module => 0
  | .classDef => 1
  | .functionDef => 2
  | .asyncFunctionDef => 2
  | .importFrom => 3
  | .importPlain => 3

/-- Counterexample to C1 as stated: for a source with a function on line 1
and a class on line 3, the sequence of records rendered by
`yield_docstrings` (sorted by line number only) puts the Function record
before the Class record, so records of an earlier category group do not all
precede records of a later group. -/
theorem c1_counterexample :
    ¬ (sortRecs (extRecords (parse_docstrings "def f():\n    pass\nclass C:\n    pass"
        ⟨[.functionDef "f" 1 [.other 2 []], .classDef "C" 3 [.other 4 []]]⟩ false))).Pairwise
      (fun a b => specCategoryRank a.cat ≤ specCategoryRank b.cat) := by decide

/-- C1 amended: the sequence of records rendered by `yield_docstrings` is
sorted by line number alone (non-decreasing `lineno` across the whole
sequence, hence within every rendered group); the fixed section order of
the category groups does not govern the order of the groups, which are the
maximal runs of equal heading key in line-number order. -/
theorem c1_records_sorted_by_lineno (source : String) (tree : PyModule) (sink : Bool) :
    (sortRecs (extRecords (parse_docstrings source tree sink))).Pairwise
      (fun a b => a.lineno ≤ b.lineno) ∧
    ∀ kg ∈ groupby (fun r => NODE_TYPES r.cat)
        (sortRecs (extRecords (parse_docstrings source tree sink))),
      kg.2.Pairwise (fun a b => a.lineno ≤ b.lineno) := by
  refine ⟨sortRecs_pairwise _, ?_⟩
  intro kg hkg
  exact (sortRecs_pairwise _).sublist (groupby_sublist _ _ kg hkg)

/-- Witness for C1: the records of the counterexample source are sorted by
line number, and its Module group is trivially sorted. -/
theorem c1_records_sorted_witness :
    ([⟨.module, none, 0, "**UNDOCUMENTED**"⟩] : List Rec).Pairwise
      (fun a b => a.lineno ≤ b.lineno) :=
  (c1_records_sorted_by_lineno "def f():\n    pass\nclass C:\n    pass"
      ⟨[.functionDef "f" 1 [.other 2 []], .classDef "C" 3 [.other 4 []]]⟩ false).2
    ("# Module", [⟨.module, none, 0, "**UNDOCUMENTED**"⟩]) (by decide)

/-- C2: when the rendered records contain at least one import record —
`r0` being the first one in render order — the heading chunk `## Imports\n`
is emitted exactly once over the whole output and immediately precedes the
first import's bullet chunk.  The hypothesis that no record body equals the
heading text rules out a documentation comment that is literally
`## Imports`, which would duplicate the text (though not the emission). -/
theorem c2_single_imports_heading (source : String) (tree : PyModule) (module : String)
    (sink : Bool) (r0 : Rec)
    (hbody : ∀ r ∈ extRecords (parse_docstrings source tree sink), r.body ≠ "## Imports")
    (hfind : (sortRecs (extRecords (parse_docstrings source tree sink))).find?
        (fun r => isImportCat r.cat) = some r0) :
    countH (yield_docstrings source tree module sink) = 1 ∧
    ∃ A B, yield_docstrings source tree module sink =
        A ++ "## Imports\n" :: ("* " ++ pyOr r0.name module) :: B ∧
      countH A = 0 ∧ countH B = 0 := by
  have hb2 : ∀ r ∈ sortRecs (extRecords (parse_docstrings source tree sink)),
      r.body ≠ "## Imports" := fun r hr => hbody r (mem_sortRecs.mp hr)
  obtain ⟨A, B, hAB, hA, hB⟩ := (renderFlat_true_heading module _ hb2).2 r0 hfind
  rw [yield_docstrings_eq_flat, hAB]
  refine ⟨?_, A, B, rfl, hA, hB⟩
  rw [countH_append]
  simp [countH, hA, hB, bullet_ne_imports]

/-- Witness for C2: a module with a single plain import renders exactly one
`## Imports` heading chunk. -/
theorem c2_single_imports_heading_witness :
    countH (yield_docstrings "import os" ⟨[.importPlain ["os"] 1]⟩ "m" false) = 1 :=
  (c2_single_imports_heading "import os" ⟨[.importPlain ["os"] 1]⟩ "m" false
    ⟨.importPlain, some "os", 0, ""⟩ (by decide) (by decide)).1

end DocsToMd
